import Mathlib

/-!
# Verification of the quality-dimension-generator persistence/identity subsystem

Shallow embedding, in Lean 4, of the persistence/identity subsystem of the
`quality-dimension-generator` MCP server:

* the task fingerprint (`taskHash`) computed in
  `generate_quality_dimensions_prompt` (`src/index.ts`): MD5 over the JSON
  serialization of the normalized task fields, truncated to 8 hex characters;
* the existing-task lookup over the `tasks` directory (`src/index.ts`);
* `QdgDirectoryManager.initializeQdgDirectory` / `createConfigFiles` /
  `saveFinalDimensionStandards` (`src/lib/qdgDirectoryManager.ts`) over an
  explicit filesystem state;
* `ConfigManager.getConfig` / `setDimensionCount` / `setExpectedScore`
  (`src/lib/configManager.ts`) over a JSON value model.

JavaScript 64-bit floats that only ever hold small integers or simple decimal
settings are modelled as `ℚ`; JavaScript strings as Lean `String`;
`undefined`-able fields as `Option`.
-/

/-! ## MD5 (RFC 1321), executable over byte lists

`taskHash` in `src/index.ts` calls `crypto.createHash('md5')` on the UTF-8
bytes of a JSON string and takes the lowercase hex digest.  We implement MD5
itself so that fingerprints can be computed inside Lean.  All 32-bit words are
`Nat` reduced modulo `2^32`.
-/

namespace Md5

/-- Truncate to a 32-bit word. -/
def u32 (n : Nat) : Nat := n % 4294967296

/-- Bitwise complement of a 32-bit word. -/
def compl32 (x : Nat) : Nat := x ^^^ 4294967295

/-- Left-rotate a 32-bit word by `n` bits (`0 < n < 32` in all uses). -/
def rotl (x n : Nat) : Nat := u32 (x <<< n) ||| (x >>> (32 - n))

/-- The 64 sine-derived constants `T[i] = floor(abs(sin(i+1)) * 2^32)`. -/
def kTable : List Nat :=
  [0xd76aa478, 0xe8c7b756, 0x242070db, 0xc1bdceee,
   0xf57c0faf, 0x4787c62a, 0xa8304613, 0xfd469501,
   0x698098d8, 0x8b44f7af, 0xffff5bb1, 0x895cd7be,
   0x6b901122, 0xfd987193, 0xa679438e, 0x49b40821,
   0xf61e2562, 0xc040b340, 0x265e5a51, 0xe9b6c7aa,
   0xd62f105d, 0x02441453, 0xd8a1e681, 0xe7d3fbc8,
   0x21e1cde6, 0xc33707d6, 0xf4d50d87, 0x455a14ed,
   0xa9e3e905, 0xfcefa3f8, 0x676f02d9, 0x8d2a4c8a,
   0xfffa3942, 0x8771f681, 0x6d9d6122, 0xfde5380c,
   0xa4beea44, 0x4bdecfa9, 0xf6bb4b60, 0xbebfbc70,
   0x289b7ec6, 0xeaa127fa, 0xd4ef3085, 0x04881d05,
   0xd9d4d039, 0xe6db99e5, 0x1fa27cf8, 0xc4ac5665,
   0xf4292244, 0x432aff97, 0xab9423a7, 0xfc93a039,
   0x655b59c3, 0x8f0ccc92, 0xffeff47d, 0x85845dd1,
   0x6fa87e4f, 0xfe2ce6e0, 0xa3014314, 0x4e0811a1,
   0xf7537e82, 0xbd3af235, 0x2ad7d2bb, 0xeb86d391]

/-- Per-round left-rotation amounts. -/
def sTable : List Nat :=
  [7, 12, 17, 22, 7, 12, 17, 22, 7, 12, 17, 22, 7, 12, 17, 22,
   5,  9, 14, 20, 5,  9, 14, 20, 5,  9, 14, 20, 5,  9, 14, 20,
   4, 11, 16, 23, 4, 11, 16, 23, 4, 11, 16, 23, 4, 11, 16, 23,
   6, 10, 15, 21, 6, 10, 15, 21, 6, 10, 15, 21, 6, 10, 15, 21]

/-- MD5 state: the four 32-bit registers. -/
structure State where
  a : Nat
  b : Nat
  c : Nat
  d : Nat
deriving Repr, DecidableEq

/-- Initial register values. -/
def initState : State := ⟨0x67452301, 0xefcdab89, 0x98badcfe, 0x10325476⟩

/-- One of the 64 MD5 rounds; `m` is the 16-word message block. -/
def round (m : List Nat) (st : State) (i : Nat) : State :=
  let fg : Nat × Nat :=
    if i < 16 then ((st.b &&& st.c) ||| (compl32 st.b &&& st.d), i)
    else if i < 32 then ((st.d &&& st.b) ||| (compl32 st.d &&& st.c), (5 * i + 1) % 16)
    else if i < 48 then (st.b ^^^ st.c ^^^ st.d, (3 * i + 5) % 16)
    else (st.c ^^^ (st.b ||| compl32 st.d), (7 * i) % 16)
  let f := u32 (fg.1 + st.a + kTable.getD i 0 + m.getD fg.2 0)
  ⟨st.d, u32 (st.b + rotl f (sTable.getD i 0)), st.b, st.c⟩

/-- Process one 16-word block. -/
def processBlock (st : State) (m : List Nat) : State :=
  let r := (List.range 64).foldl (round m) st
  ⟨u32 (st.a + r.a), u32 (st.b + r.b), u32 (st.c + r.c), u32 (st.d + r.d)⟩

/-- Little-endian byte decomposition of `x` into `n` bytes. -/
def leBytes (n x : Nat) : List Nat :=
  (List.range n).map fun i => (x >>> (8 * i)) % 256

/-- Assemble one little-endian 32-bit word from four bytes. -/
def leWord (b0 b1 b2 b3 : Nat) : Nat := b0 + 256 * b1 + 65536 * b2 + 16777216 * b3

/-- Split a byte list into little-endian 32-bit words. -/
def toWords : List Nat → List Nat
  | b0 :: b1 :: b2 :: b3 :: rest => leWord b0 b1 b2 b3 :: toWords rest
  | _ => []

/-- MD5 padding: `0x80`, zeros to 56 mod 64, then the 64-bit little-endian
bit length. -/
def pad (msg : List Nat) : List Nat :=
  let len := msg.length
  let zeros := (64 + 56 - (len + 1) % 64) % 64
  msg ++ 0x80 :: List.replicate zeros 0 ++ leBytes 8 ((len * 8) % 18446744073709551616)

/-- Split a byte list into 16-word blocks, 64 bytes at a time; the fuel
argument (any bound on the number of chunks, decreased structurally) makes
the recursion kernel-reducible. -/
def blocksGo (fuel : Nat) (bytes : List Nat) : List (List Nat) :=
  match fuel with
  | 0 => []
  | fuel + 1 =>
    if bytes.isEmpty then []
    else toWords (bytes.take 64) :: blocksGo fuel (bytes.drop 64)

/-- Split the padded message into 16-word blocks (input length is a positive
multiple of 64). -/
def blocks (bytes : List Nat) : List (List Nat) := blocksGo bytes.length bytes

/-- The two lowercase hex digits of a byte. -/
def byteHex (b : Nat) : List Char :=
  let dig : Nat → Char := fun n => ("0123456789abcdef".data).getD n '0'
  [dig (b / 16), dig (b % 16)]

/-- MD5 digest of a byte list, as the usual 32-character lowercase hex string. -/
def md5Hex (msg : List Nat) : String :=
  let st := (blocks (pad msg)).foldl processBlock initState
  let bytes := leBytes 4 st.a ++ leBytes 4 st.b ++ leBytes 4 st.c ++ leBytes 4 st.d
  String.mk (bytes.flatMap byteHex)

end Md5

/-- UTF-8 encoding of one character (Lean `Char` is a Unicode scalar value). -/
def utf8EncodeCharBytes (c : Char) : List Nat :=
  let n := c.toNat
  if n < 0x80 then [n]
  else if n < 0x800 then [0xC0 + n / 64, 0x80 + n % 64]
  else if n < 0x10000 then [0xE0 + n / 4096, 0x80 + (n / 64) % 64, 0x80 + n % 64]
  else [0xF0 + n / 262144, 0x80 + (n / 4096) % 64, 0x80 + (n / 64) % 64, 0x80 + n % 64]

/-- UTF-8 bytes of a string (what `crypto.createHash(...).update(string)`
hashes in Node). -/
def utf8Bytes (s : String) : List Nat := s.data.flatMap utf8EncodeCharBytes

/-! ## Task fingerprint (`taskHash` in `src/index.ts`)

```ts
const taskHash = crypto.createHash('md5')
  .update(JSON.stringify({
    coreTask: task.coreTask,
    taskType: task.taskType,
    domain: task.domain,
    keyElements: task.keyElements?.sort(),
    objectives: task.objectives?.sort()
  }))
  .digest('hex')
  .substring(0, 8);
```

The object literal is serialized by `JSON.stringify` with its keys in
insertion order; a field whose value is `undefined` (absent `keyElements` /
`objectives`, where `?.sort()` yields `undefined`) is omitted from the
serialization.  `Array.prototype.sort()` sorts the string arrays in place by
string comparison; we model that comparison by Lean's linear order on
`String` (any fixed total order gives the same sorted list on permuted
inputs, which is what the ordering claims are about).
-/

/-- The task-analysis fields that enter the fingerprint.  In
`lib/types.ts` the `TaskAnalysis` interface declares `keyElements` and
`objectives` as `string[]`, but the value reaching `taskHash` comes from
`JSON.parse` of caller-supplied text and the code guards both fields with
`?.`, so they are modelled as `Option`. -/
structure TaskAnalysis where
  coreTask : String
  taskType : String
  domain : String
  keyElements : Option (List String)
  objectives : Option (List String)
deriving Repr, DecidableEq

/-- Lexicographic strict comparison of character lists by code point,
modelling the default string comparison used by `Array.prototype.sort()`
(JavaScript compares UTF-16 code units; on the Unicode scalar values of a
Lean `String` this is the code-point order, which agrees with it on the BMP —
any fixed total order yields the same sorted result on permuted inputs). -/
def jsCharListLt : List Char → List Char → Bool
  | _, [] => false
  | [], _ :: _ => true
  | a :: as, b :: bs =>
    if a.toNat < b.toNat then true
    else if b.toNat < a.toNat then false
    else jsCharListLt as bs

/-- The non-strict string comparison induced by `jsCharListLt`. -/
def JsLe (a b : String) : Prop := jsCharListLt b.data a.data = false

instance : DecidableRel JsLe := fun _ _ => inferInstanceAs (Decidable (_ = false))

/-- The in-place `Array.prototype.sort()` on a string array: a sort with
respect to the total string comparison. -/
def sortStrings (l : List String) : List String :=
  List.insertionSort JsLe l

/-- JSON escaping of one character, as `JSON.stringify` performs on the
characters of a string value. -/
def jsonEscapeChar (c : Char) : List Char :=
  if c = '"' then ['\\', '"']
  else if c = '\\' then ['\\', '\\']
  else if c = '\x08' then ['\\', 'b']
  else if c = '\x09' then ['\\', 't']
  else if c = '\x0a' then ['\\', 'n']
  else if c = '\x0c' then ['\\', 'f']
  else if c = '\x0d' then ['\\', 'r']
  else if c.toNat < 0x20 then
    let dig : Nat → Char := fun n => ("0123456789abcdef".data).getD n '0'
    ['\\', 'u', '0', '0', dig (c.toNat / 16), dig (c.toNat % 16)]
  else [c]

/-- `JSON.stringify` of a string value. -/
def jsonString (s : String) : String :=
  "\"" ++ String.mk (s.data.flatMap jsonEscapeChar) ++ "\""

/-- `JSON.stringify` of an array of strings. -/
def jsonStringArray (l : List String) : String :=
  "[" ++ String.intercalate "," (l.map jsonString) ++ "]"

/-- Serialization of one optional sorted-array field of the hashed object
literal: a `key: undefined` entry is omitted by `JSON.stringify`, a present
array is sorted in place and serialized. -/
def optSortedField (key : String) : Option (List String) → List String
  | none => []
  | some l => [key ++ jsonStringArray (sortStrings l)]

/-- The canonical serialization hashed by `taskHash`: `JSON.stringify` of the
five-key object literal, keys in insertion order, `undefined`-valued keys
omitted, `keyElements`/`objectives` sorted. -/
def serializeTaskForHash (t : TaskAnalysis) : String :=
  let fields : List String :=
    ["\"coreTask\":" ++ jsonString t.coreTask,
     "\"taskType\":" ++ jsonString t.taskType,
     "\"domain\":" ++ jsonString t.domain]
    ++ optSortedField "\"keyElements\":" t.keyElements
    ++ optSortedField "\"objectives\":" t.objectives
  "\x7b" ++ String.intercalate "," fields ++ "\x7d"

/-- Equality of optional string lists up to ordering of the elements: the
relation under which the fingerprint is claimed to be invariant. -/
def optPerm : Option (List String) → Option (List String) → Prop
  | none, none => True
  | some l1, some l2 => l1.Perm l2
  | _, _ => False

instance : ∀ o1 o2, Decidable (optPerm o1 o2) := fun o1 o2 =>
  match o1, o2 with
  | none, none => inferInstanceAs (Decidable True)
  | some _, some _ => List.decidablePerm _ _
  | none, some _ => inferInstanceAs (Decidable False)
  | some _, none => inferInstanceAs (Decidable False)

/-- The task fingerprint: first 8 hex characters of the MD5 digest of the
canonical serialization (`.digest('hex').substring(0, 8)`). -/
def taskHash (t : TaskAnalysis) : String :=
  String.mk ((Md5.md5Hex (utf8Bytes (serializeTaskForHash t))).data.take 8)

/-! ## Existing-task lookup (`src/index.ts`, `existingTaskId`)

```ts
let existingTaskId: string | null = null;
try {
  const tasksDir = path.join(resolvedProjectPath, '.qdg', 'tasks');
  if (fs.existsSync(tasksDir)) {
    const taskFolders = fs.readdirSync(tasksDir);
    existingTaskId = taskFolders.find((folder: string) =>
      folder.includes(taskHash)
    ) || null;
  }
} catch (error) \x7b // Ignore check errors, continue creating new task \x7d
```
-/

/-- Outcome of probing and reading the `tasks` directory. -/
inductive ScanOutcome where
  /-- `fs.existsSync(tasksDir)` returned `false`. -/
  | noDir : ScanOutcome
  /-- `fs.readdirSync` (or the existence probe) threw. -/
  | scanError : ScanOutcome
  /-- The directory entry names, in directory order. -/
  | entries : List String → ScanOutcome
deriving Repr, DecidableEq

/-- JavaScript `String.prototype.includes`: substring containment. -/
def strIncludes (s sub : String) : Bool :=
  decide (sub.data <:+: s.data)

/-- The existing-task lookup: first directory entry whose name contains the
fingerprint, `none` when nothing matches, when the directory is absent, or
when the scan throws.  The `|| null` of the source maps both `undefined`
(no match) and a falsy found value (the empty string, which `readdir` can
never actually produce) to `null`. -/
def findExistingTask (outcome : ScanOutcome) (hash : String) : Option String :=
  match outcome with
  | .noDir => none
  | .scanError => none
  | .entries l =>
    match l.find? (fun folder => strIncludes folder hash) with
    | some f => if f = "" then none else some f
    | none => none

/-! ## Filesystem model

The directory manager performs local filesystem calls (`fs.mkdir` with
`recursive: true`, `fs.access`, `fs.writeFile`, `fs.stat`, `fs.readdir`).
We model the filesystem as an explicit state: a set of existing directories
and a map from file paths to contents, both as lists; a path is its list of
components (`path.join` is modelled by list append).  External failure modes
(permissions for `mkdir`, short or failed writes) are injected through
explicit oracle parameters, since they are environment behaviour, not code
behaviour. -/

/-- A filesystem path, as its components. -/
abbrev FsPath := List String

/-- Explicit filesystem state. -/
structure FS where
  dirs : List FsPath
  files : List (FsPath × String)
deriving Repr, DecidableEq

/-- Directory existence. -/
def FS.dirExists (fs : FS) (p : FsPath) : Bool := decide (p ∈ fs.dirs)

/-- Content of the file at `p`, if present. -/
def FS.lookupFile (fs : FS) (p : FsPath) : Option String :=
  (fs.files.find? fun e => decide (e.1 = p)).map (·.2)

/-- Write (create or overwrite) the file at `p`. -/
def FS.writeFileRaw (fs : FS) (p : FsPath) (content : String) : FS :=
  { fs with files := (p, content) :: fs.files.filter fun e => !decide (e.1 = p) }

/-- The nonempty prefixes of a path: the path itself and its ancestors. -/
def nonNilPrefixes (p : FsPath) : List FsPath :=
  (List.range p.length).map fun i => p.take (i + 1)

/-- `fs.mkdir(p, { recursive: true })`: create the directory and every
missing ancestor; a directory that already exists is not an error. -/
def FS.mkdirRec (fs : FS) (p : FsPath) : FS :=
  { fs with dirs := (nonNilPrefixes p).filter (fun q => !decide (q ∈ fs.dirs)) ++ fs.dirs }

/-- Whether `readdir p` returns an empty listing: no directory or file whose
path extends `p` by exactly one component. -/
def FS.dirIsEmpty (fs : FS) (p : FsPath) : Bool :=
  !(fs.dirs.any fun q => decide (q.length = p.length + 1) && decide (q.take p.length = p)) &&
  !(fs.files.any fun e => decide (e.1.length = p.length + 1) && decide (e.1.take p.length = p))

/-- Rendering of a path for the strings the operations return. -/
def pathString (p : FsPath) : String := String.intercalate "/" p

/-- The error taxonomy: validation failures (`throw new Error` on a range
check) and storage failures (wrapped I/O errors). -/
inductive QdgError where
  | validation : String → QdgError
  | storage : String → QdgError
deriving Repr, DecidableEq

/-! ## `QdgDirectoryManager` (`src/lib/qdgDirectoryManager.ts`) -/

/-- `getQdgDirectory`: `join(resolve(projectPath), '.qdg')`. -/
def getQdgDirectory (projectPath : FsPath) : FsPath := projectPath ++ [".qdg"]

/-- The record returned by `getSubDirectories`. -/
structure SubDirs where
  qdgDir : FsPath
  tasks : FsPath
  config : FsPath
deriving Repr, DecidableEq

/-- `getSubDirectories`. -/
def getSubDirectories (projectPath : FsPath) : SubDirs :=
  let qdgDir := getQdgDirectory projectPath
  ⟨qdgDir, qdgDir ++ ["tasks"], qdgDir ++ ["config"]⟩

/-- `Object.entries(dirs)` in insertion order, as iterated by the
initialization loop. -/
def subDirEntries (d : SubDirs) : List (String × FsPath) :=
  [("qdgDir", d.qdgDir), ("tasks", d.tasks), ("config", d.config)]

/-- The result record of `initializeQdgDirectory`. -/
structure InitResult where
  qdgDir : FsPath
  created : List String
  existed : List String
deriving Repr, DecidableEq

/-- One iteration of the directory-creation loop of
`initializeQdgDirectory`: try `mkdir` (on failure, warn and continue), then
classify the subpath as `created` when the directory reads back empty,
`existed` otherwise (the dead `name !== 'qetDir'` guard of the source is
kept; it is true for all three names). -/
def initDirStep (mkdirFails : FsPath → Bool) (acc : FS × List String × List String)
    (e : String × FsPath) : FS × List String × List String :=
  if mkdirFails e.2 then (acc.1, acc.2.1, acc.2.2)
  else
    let fs' := acc.1.mkdirRec e.2
    if fs'.dirIsEmpty e.2 && !(e.1 == "qetDir") then (fs', acc.2.1 ++ [e.1], acc.2.2)
    else if !(e.1 == "qetDir") then (fs', acc.2.1, acc.2.2 ++ [e.1])
    else (fs', acc.2.1, acc.2.2)

/-- The default settings document written on first initialization:
`JSON.stringify(defaultConfig, null, 2)`. -/
def defaultConfigContent : String :=
  "\x7b\n  \"settings\": \x7b\n    \"dimensionCount\": 5,\n    \"expectedScore\": 8\n  \x7d\n\x7d"

/-- The path of the settings document `qdg.config.json`. -/
def mainConfigPath (projectPath : FsPath) : FsPath :=
  (getSubDirectories projectPath).config ++ ["qdg.config.json"]

/-- `createConfigFiles`: probe the settings document with `fs.access`; when
it exists leave it untouched, otherwise write the default document (the
write throws when the config directory is missing, and that error is not
caught). -/
def createConfigFiles (fs : FS) (d : SubDirs) : FS × Except QdgError Unit :=
  let p := d.config ++ ["qdg.config.json"]
  match fs.lookupFile p with
  | some _ => (fs, .ok ())
  | none =>
    if fs.dirExists d.config then (fs.writeFileRaw p defaultConfigContent, .ok ())
    else (fs, .error (.storage "ENOENT: no such file or directory, open qdg.config.json"))

/-- `initializeQdgDirectory`: create the three directories (failures per
subpath are warned about and skipped), then ensure the default settings
document; an error from `createConfigFiles` propagates.  The filesystem
state is returned in either case (a thrown error does not roll back prior
writes). -/
def initializeQdgDirectory (mkdirFails : FsPath → Bool) (fs : FS) (projectPath : FsPath) :
    FS × Except QdgError InitResult :=
  let d := getSubDirectories projectPath
  let r := (subDirEntries d).foldl (initDirStep mkdirFails) (fs, [], [])
  match createConfigFiles r.1 d with
  | (fs2, .ok _) => (fs2, .ok ⟨d.qdgDir, r.2.1, r.2.2⟩)
  | (fs2, .error e) => (fs2, .error e)

/-- `getTaskDirectory`. -/
def getTaskDirectory (projectPath : FsPath) (taskId : String) : FsPath :=
  (getSubDirectories projectPath).tasks ++ [taskId]

/-- `getDimensionPath`. -/
def getDimensionPath (projectPath : FsPath) (taskId : String) : FsPath :=
  getTaskDirectory projectPath taskId ++ [taskId ++ "_dimension.md"]

/-- Behaviour of one `fs.writeFile` call, injected as an oracle: a normal
write, a write that leaves a zero-byte file (the failure mode the
stat-verification guards against), or a thrown I/O error. -/
inductive WriteOutcome where
  | ok : WriteOutcome
  | truncated : WriteOutcome
  | ioError : WriteOutcome
deriving Repr, DecidableEq

/-- `fs.writeFile` under a `WriteOutcome`: throws when the parent directory
is missing (`ENOENT`) or on an injected I/O error; a truncated write leaves
an empty file. -/
def writeFileE (wo : WriteOutcome) (fs : FS) (p : FsPath) (content : String) :
    FS × Except QdgError Unit :=
  if fs.dirExists p.dropLast then
    match wo with
    | .ok => (fs.writeFileRaw p content, .ok ())
    | .truncated => (fs.writeFileRaw p "", .ok ())
    | .ioError => (fs, .error (.storage "EIO: i/o error, write"))
  else (fs, .error (.storage "ENOENT: no such file or directory, open"))

/-- The document rendered by `saveFinalDimensionStandards`; `nowStr` stands
for `new Date().toLocaleString('zh-CN')`. -/
def finalDimensionContent (taskId nowStr refined dims : String) : String :=
  "# 质量评价标准\n\n## 📋 任务提炼（第一个环节输出）\n\n" ++ refined ++
  "\n\n---\n\n## ⭐ 评价维度体系（第二个环节输出）\n\n" ++ dims ++
  "\n\n---\n\n## � 使用说明\n\n**任务ID**: " ++ taskId ++
  "  \n**生成时间**: " ++ nowStr ++
  "\n\n**评分方式**: 每个维度可给0-10分任意数字（包括小数点）  \n**参考标准**: 6分及格、8分优秀、10分卓越  \n**最终分数**: 所有维度得分的平均值\n\n**状态**: ✅ 任务提炼和评价标准已完成，可开始执行任务\n\n---\n\n*Quality Dimension Generator - 双环节输出完整版*\n"

/-- `saveFinalDimensionStandards`: ensure the task directory, write the
document, re-stat it, treat a zero-byte result as a failure, and only then
return the file path; every thrown error is wrapped into one descriptive
storage error. -/
def saveFinalDimensionStandards (wo : WriteOutcome) (mkdirFails : FsPath → Bool)
    (nowStr : String) (fs : FS) (projectPath : FsPath)
    (taskId refined dims : String) : FS × Except QdgError String :=
  let taskDir := getTaskDirectory projectPath taskId
  let dimensionPath := getDimensionPath projectPath taskId
  if mkdirFails taskDir then (fs, .error (.storage "保存最终评价标准失败: mkdir"))
  else
    let fs1 := fs.mkdirRec taskDir
    let content := finalDimensionContent taskId nowStr refined dims
    match writeFileE wo fs1 dimensionPath content with
    | (fs2, .error _) => (fs2, .error (.storage "保存最终评价标准失败: write"))
    | (fs2, .ok _) =>
      match fs2.lookupFile dimensionPath with
      | none => (fs2, .error (.storage "保存最终评价标准失败: stat"))
      | some saved =>
        if (utf8Bytes saved).length = 0 then
          (fs2, .error (.storage "保存最终评价标准失败: 文件写入失败：文件大小为0"))
        else (fs2, .ok (pathString dimensionPath))

/-! ## `ConfigManager` (`src/lib/configManager.ts`) -/

/-- JSON values, the possible results of `JSON.parse`. -/
inductive Json where
  | null : Json
  | bool : Bool → Json
  | num : ℚ → Json
  | str : String → Json
  | arr : List Json → Json
  | obj : List (String × Json) → Json

/-- Last binding of `key` in a parsed JSON object (on duplicate keys,
`JSON.parse` keeps the last). -/
def jsonObjGet (fields : List (String × Json)) (key : String) : Option Json :=
  (fields.reverse.find? fun e => decide (e.1 = key)).map (·.2)

/-- The dynamic object `{...DEFAULT_CONFIG, ...config}` restricted to the
two fields the `QdgConfig` type exposes; the values are JSON values because
nothing coerces what `JSON.parse` produced. -/
structure QdgConfigJ where
  dimensionCount : Json
  expectedScore : Json

/-- `DEFAULT_CONFIG`: `dimensionCount: 5, expectedScore: 8`. -/
def defaultConfig : QdgConfigJ := ⟨.num 5, .num 8⟩

/-- The spread `{...DEFAULT_CONFIG, ...config}`: a top-level key of a parsed
object overrides the default; spreading a non-object contributes no own
`dimensionCount`/`expectedScore` properties. -/
def spreadConfig (j : Json) : QdgConfigJ :=
  match j with
  | .obj fields =>
    ⟨(jsonObjGet fields "dimensionCount").getD (.num 5),
     (jsonObjGet fields "expectedScore").getD (.num 8)⟩
  | _ => ⟨.num 5, .num 8⟩

/-- Outcome of `fs.readFile` + `JSON.parse` on the settings document. -/
inductive ReadOutcome where
  /-- The file is missing or reading threw. -/
  | readError : ReadOutcome
  /-- The content is not valid JSON: `JSON.parse` threw. -/
  | parseError : ReadOutcome
  /-- The parsed JSON value. -/
  | parsed : Json → ReadOutcome

/-- `getConfig`: merge the parsed document over the defaults; any failure
falls back to the defaults (the catch-all branch). -/
def getConfig (r : ReadOutcome) : QdgConfigJ :=
  match r with
  | .readError => defaultConfig
  | .parseError => defaultConfig
  | .parsed j => spreadConfig j

/-- `getDimensionCount`. -/
def getDimensionCount (r : ReadOutcome) : Json := (getConfig r).dimensionCount

/-- `getExpectedScore`. -/
def getExpectedScore (r : ReadOutcome) : Json := (getConfig r).expectedScore

/-- `setDimensionCount`: range-check the argument (`count < 1 || count > 10`
throws), then read-merge: the saved configuration is `getConfig` with the
field replaced. -/
def setDimensionCount (count : ℚ) (r : ReadOutcome) : Except QdgError QdgConfigJ :=
  if count < 1 ∨ count > 10 then .error (.validation "Dimension count must be between 1-10")
  else .ok { getConfig r with dimensionCount := .num count }

/-- `setExpectedScore`: range-check (`score < 0 || score > 10` throws), then
read-merge. -/
def setExpectedScore (score : ℚ) (r : ReadOutcome) : Except QdgError QdgConfigJ :=
  if score < 0 ∨ score > 10 then .error (.validation "Expected score must be between 0-10")
  else .ok { getConfig r with expectedScore := .num score }

/-- The JSON object `createConfigFiles` serializes into the default settings
document: the two values sit under a nested `settings` key, not at top
level (`defaultConfigContent` is its `JSON.stringify`). -/
def defaultConfigFileJson : Json :=
  .obj [("settings", .obj [("dimensionCount", .num 5), ("expectedScore", .num 8)])]

/-! ## Task-name sanitization for the flat task-record layout -/

/-- Characters illegal in file names (path separators, drive/stream
separators, wildcards, quotes, redirection). -/
def illegalFileNameChar (c : Char) : Bool :=
  c ∈ ['/', '\\', ':', '*', '?', '"', '<', '>', '|']

/-- Collapse every run of whitespace to a single `_` separator; the flag
records whether the previous kept character was a separator. -/
def collapseWs : Bool → List Char → List Char
  | _, [] => []
  | prevSep, c :: rest =>
    if c.isWhitespace then
      if prevSep then collapseWs true rest
      else '_' :: collapseWs true rest
    else c :: collapseWs false rest

/-- Modelled from the spec: the flat-layout writer
`saveFinalDimensionStandardsFlat` is called from `src/index.ts` but its
definition (and with it the task-name sanitizer) is not among the provided
sources.  Following the spec's contract `sanitizeName(rawName) -> safeName`:
strips characters illegal in file names, collapses whitespace to a single
separator, truncates to a bounded length of 50 characters, and is a pure
function of its input. -/
def sanitizeName (raw : String) : String :=
  String.mk ((collapseWs false (raw.data.filter fun c => !illegalFileNameChar c)).take 50)

/-- Modelled from the spec: the flat task-record file name
`tasks/<taskId>_<sanitizedName>.md`. -/
def flatTaskFileName (taskId taskName : String) : String :=
  taskId ++ "_" ++ sanitizeName taskName ++ ".md"

/-! ## Properties of the string comparison and of `sortStrings` -/

theorem jsCharListLt_asymm : ∀ (as bs : List Char),
    jsCharListLt as bs = true → jsCharListLt bs as = false
  | as, [], h => by cases as <;> simp [jsCharListLt] at h
  | [], _ :: _, _ => by simp [jsCharListLt]
  | a :: as, b :: bs, h => by
    simp only [jsCharListLt] at h ⊢
    rcases Nat.lt_trichotomy a.toNat b.toNat with hlt | heq | hgt
    · simp [hlt, Nat.lt_asymm hlt]
    · simp [heq, Nat.lt_irrefl] at h ⊢
      exact jsCharListLt_asymm as bs h
    · simp [hgt, Nat.lt_asymm hgt] at h

theorem jsCharListLt_eq_of_not_lt : ∀ (as bs : List Char),
    jsCharListLt as bs = false → jsCharListLt bs as = false → as = bs
  | [], [], _, _ => rfl
  | [], _ :: _, h1, _ => by simp [jsCharListLt] at h1
  | _ :: _, [], _, h2 => by simp [jsCharListLt] at h2
  | a :: as, b :: bs, h1, h2 => by
    simp only [jsCharListLt] at h1 h2
    rcases Nat.lt_trichotomy a.toNat b.toNat with hlt | heq | hgt
    · simp [hlt] at h1
    · have hab : a = b := Char.ext (UInt32.ext heq)
      subst hab
      simp [Nat.lt_irrefl] at h1 h2
      rw [jsCharListLt_eq_of_not_lt as bs h1 h2]
    · simp [hgt] at h2

theorem jsCharListLt_trans : ∀ (as bs cs : List Char),
    jsCharListLt as bs = true → jsCharListLt bs cs = true → jsCharListLt as cs = true
  | as, bs, [], _, h2 => by cases bs <;> simp [jsCharListLt] at h2
  | as, [], _ :: _, h1, _ => by cases as <;> simp [jsCharListLt] at h1
  | [], _ :: _, _ :: _, _, _ => by simp [jsCharListLt]
  | a :: as, b :: bs, c :: cs, h1, h2 => by
    simp only [jsCharListLt] at h1 h2 ⊢
    rcases Nat.lt_trichotomy a.toNat b.toNat with hab | hab | hab
    · rcases Nat.lt_trichotomy b.toNat c.toNat with hbc | hbc | hbc
      · simp [show a.toNat < c.toNat by omega]
      · simp [show a.toNat < c.toNat by omega]
      · simp [hbc, Nat.lt_asymm hbc] at h2
    · rcases Nat.lt_trichotomy b.toNat c.toNat with hbc | hbc | hbc
      · simp [show a.toNat < c.toNat by omega]
      · simp [hab, Nat.lt_irrefl] at h1
        simp [hbc, Nat.lt_irrefl] at h2
        simp [show ¬ a.toNat < c.toNat by omega, show ¬ c.toNat < a.toNat by omega]
        exact jsCharListLt_trans as bs cs h1 h2
      · simp [hbc, Nat.lt_asymm hbc] at h2
    · simp [hab, Nat.lt_asymm hab] at h1

instance : IsTrans String JsLe where
  trans a b c h1 h2 := by
    unfold JsLe at *
    cases hca : jsCharListLt c.data a.data with
    | false => rfl
    | true =>
      cases hab : jsCharListLt a.data b.data with
      | true =>
        have := jsCharListLt_trans c.data a.data b.data hca hab
        rw [this] at h2
        exact h2
      | false =>
        have hdata : a.data = b.data := jsCharListLt_eq_of_not_lt a.data b.data hab h1
        rw [← hdata] at h2
        rw [hca] at h2
        exact h2

instance : IsTotal String JsLe where
  total a b := by
    unfold JsLe
    cases h : jsCharListLt b.data a.data with
    | false => exact Or.inl rfl
    | true => exact Or.inr (jsCharListLt_asymm b.data a.data h)

instance : IsAntisymm String JsLe where
  antisymm a b h1 h2 := by
    unfold JsLe at h1 h2
    exact String.ext (jsCharListLt_eq_of_not_lt a.data b.data h2 h1)

/-- Two permuted string lists sort to the same list: the sorted list is a
permutation of either, is sorted, and sorted permutations under an
antisymmetric total order are equal. -/
theorem sortStrings_eq_of_perm {l1 l2 : List String} (h : l1.Perm l2) :
    sortStrings l1 = sortStrings l2 :=
  List.eq_of_perm_of_sorted
    ((List.perm_insertionSort JsLe l1).trans (h.trans (List.perm_insertionSort JsLe l2).symm))
    (List.sorted_insertionSort JsLe l1) (List.sorted_insertionSort JsLe l2)

/-- Congruence of one optional sorted field under reordering. -/
theorem optSortedField_congr (key : String) {o1 o2 : Option (List String)}
    (h : optPerm o1 o2) : optSortedField key o1 = optSortedField key o2 := by
  cases o1 <;> cases o2 <;> simp only [optPerm] at h
  · rfl
  · simp [optSortedField, sortStrings_eq_of_perm h]

/-! ## Claim C1: order-independence of the task fingerprint -/

/-- C1.  Two task analyses with equal `coreTask`, `taskType` and `domain`
and with `keyElements` and `objectives` containing the same elements,
possibly in different order, receive the same task fingerprint from
`generate_quality_dimensions_prompt` (MD5 over the canonical serialization
of the normalized fields with the two arrays sorted, truncated to 8 hex
characters). -/
theorem taskHash_order_independent (t1 t2 : TaskAnalysis)
    (hc : t1.coreTask = t2.coreTask) (ht : t1.taskType = t2.taskType)
    (hd : t1.domain = t2.domain)
    (hk : optPerm t1.keyElements t2.keyElements)
    (ho : optPerm t1.objectives t2.objectives) :
    taskHash t1 = taskHash t2 := by
  have hser : serializeTaskForHash t1 = serializeTaskForHash t2 := by
    unfold serializeTaskForHash
    rw [hc, ht, hd, optSortedField_congr _ hk, optSortedField_congr _ ho]
  unfold taskHash
  rw [hser]

/-- Concrete instance of C1: reordered `keyElements` and `objectives` hash
identically. -/
theorem taskHash_order_independent_witness :
    optPerm (some ["b", "a"]) (some ["a", "b"])
    ∧ taskHash ⟨"Write docs", "writing", "docs", some ["b", "a"], some ["y", "x"]⟩ =
        taskHash ⟨"Write docs", "writing", "docs", some ["a", "b"], some ["x", "y"]⟩ :=
  ⟨List.Perm.swap "a" "b" [],
   taskHash_order_independent _ _ rfl rfl rfl
     (List.Perm.swap "a" "b" []) (List.Perm.swap "x" "y" [])⟩

/-! ## Claim C7: absent `keyElements`/`objectives` -/

set_option maxRecDepth 100000 in
set_option maxHeartbeats 2000000 in
/-- C7, counterexample.  The fingerprint of a task with absent (undefined)
`keyElements` differs from the fingerprint of the identical task whose
`keyElements` is present as an empty list: `JSON.stringify` omits the
`undefined`-valued key, so the two canonical serializations differ, and so
do the MD5 fingerprints (computed here: `97ede6fb` versus `63cf26c4`). -/
theorem taskHash_absent_ne_empty_list :
    taskHash ⟨"Write docs", "writing", "docs", none, none⟩ ≠
      taskHash ⟨"Write docs", "writing", "docs", some [], none⟩ := by
  decide

/-- C7, amended.  The fingerprint computation is total (it cannot throw:
`?.sort()` guards the absent fields), and for every task analysis it
normalizes an absent `keyElements` — and, independently, an absent
`objectives` — by omitting that key from the canonical serialization while
keeping whatever the other field contributes, not by treating the absent
field as an empty list. -/
theorem serializeTask_omits_absent_fields (t : TaskAnalysis) :
    (t.keyElements = none →
      serializeTaskForHash t =
        "\x7b" ++ String.intercalate ","
          (["\"coreTask\":" ++ jsonString t.coreTask,
            "\"taskType\":" ++ jsonString t.taskType,
            "\"domain\":" ++ jsonString t.domain]
           ++ optSortedField "\"objectives\":" t.objectives) ++ "\x7d")
    ∧ (t.objectives = none →
      serializeTaskForHash t =
        "\x7b" ++ String.intercalate ","
          (["\"coreTask\":" ++ jsonString t.coreTask,
            "\"taskType\":" ++ jsonString t.taskType,
            "\"domain\":" ++ jsonString t.domain]
           ++ optSortedField "\"keyElements\":" t.keyElements) ++ "\x7d")
    ∧ taskHash t = String.mk ((Md5.md5Hex (utf8Bytes (serializeTaskForHash t))).data.take 8) := by
  refine ⟨fun hk => ?_, fun ho => ?_, rfl⟩
  · unfold serializeTaskForHash
    rw [hk]
    simp [optSortedField]
  · unfold serializeTaskForHash
    rw [ho]
    simp [optSortedField]

/-- Concrete instance of the amended C7, with only `keyElements` absent:
the `keyElements` key is omitted and the present `objectives` still
serialized. -/
theorem serializeTask_omits_absent_fields_witness :
    serializeTaskForHash ⟨"Write docs", "writing", "docs", none, some ["x"]⟩ =
      "\x7b" ++ String.intercalate ","
        (["\"coreTask\":" ++ jsonString "Write docs",
          "\"taskType\":" ++ jsonString "writing",
          "\"domain\":" ++ jsonString "docs"]
         ++ optSortedField "\"objectives\":" (some ["x"])) ++ "\x7d" :=
  (serializeTask_omits_absent_fields ⟨"Write docs", "writing", "docs", none, some ["x"]⟩).1 rfl

/-! ## Claims C4, C5, C10: the configuration accessor -/

/-- C4, counterexample to "`setExpectedScore(10.5)` is allowed": `10.5` is
outside the accepted range `[0, 10]`, so the guard `score < 0 || score > 10`
throws the range-violation error. -/
theorem setExpectedScore_ten_point_five_raises :
    (setExpectedScore (10.5 : ℚ) ReadOutcome.readError).isOk = false := by
  norm_num [setExpectedScore, Except.isOk, Except.toBool]

/-- C4, amended.  `setDimensionCount` succeeds exactly on counts in
`[1, 10]` and `setExpectedScore` exactly on scores in `[0, 10]`; out of
range they throw the range-violation validation error.  In particular `0`,
`11` are rejected and `5` accepted for the dimension count, and `-1`, `11`
— and also `10.5`, which exceeds `10` — are rejected for the expected
score, while fractional in-range scores such as `8.5` are accepted. -/
theorem configSetters_range (count score : ℚ) (r : ReadOutcome) :
    ((setDimensionCount count r).isOk = true ↔ 1 ≤ count ∧ count ≤ 10)
    ∧ ((setExpectedScore score r).isOk = true ↔ 0 ≤ score ∧ score ≤ 10)
    ∧ (setDimensionCount 5 r).isOk = true
    ∧ (setDimensionCount 0 r).isOk = false
    ∧ (setDimensionCount 11 r).isOk = false
    ∧ (setExpectedScore (-1) r).isOk = false
    ∧ (setExpectedScore (10.5 : ℚ) r).isOk = false
    ∧ (setExpectedScore (8.5 : ℚ) r).isOk = true
    ∧ (setExpectedScore 11 r).isOk = false := by
  have hdim : ∀ c : ℚ, ((setDimensionCount c r).isOk = true ↔ 1 ≤ c ∧ c ≤ 10) := by
    intro c
    unfold setDimensionCount
    split_ifs with h
    · constructor
      · intro hf
        exact absurd hf (by simp [Except.isOk, Except.toBool])
      · rintro ⟨h1, h2⟩
        rcases h with h | h <;> linarith
    · push_neg at h
      simpa [Except.isOk, Except.toBool] using h
  have hexp : ∀ sc : ℚ, ((setExpectedScore sc r).isOk = true ↔ 0 ≤ sc ∧ sc ≤ 10) := by
    intro sc
    unfold setExpectedScore
    split_ifs with h
    · constructor
      · intro hf
        exact absurd hf (by simp [Except.isOk, Except.toBool])
      · rintro ⟨h1, h2⟩
        rcases h with h | h <;> linarith
    · push_neg at h
      simpa [Except.isOk, Except.toBool] using h
  refine ⟨hdim count, hexp score, (hdim 5).mpr (by norm_num), ?_, ?_, ?_, ?_,
    (hexp (8.5 : ℚ)).mpr (by norm_num), ?_⟩
  · cases hb : (setDimensionCount 0 r).isOk with
    | false => rfl
    | true => exact absurd ((hdim 0).mp hb) (by norm_num)
  · cases hb : (setDimensionCount 11 r).isOk with
    | false => rfl
    | true => exact absurd ((hdim 11).mp hb) (by norm_num)
  · cases hb : (setExpectedScore (-1) r).isOk with
    | false => rfl
    | true => exact absurd ((hexp (-1)).mp hb) (by norm_num)
  · cases hb : (setExpectedScore (10.5 : ℚ) r).isOk with
    | false => rfl
    | true => exact absurd ((hexp (10.5 : ℚ)).mp hb) (by norm_num)
  · cases hb : (setExpectedScore 11 r).isOk with
    | false => rfl
    | true => exact absurd ((hexp 11).mp hb) (by norm_num)

/-- C5.  `getConfig` never propagates a read failure: a missing settings
file, invalid JSON, or any read error yields the built-in defaults
`dimensionCount = 5`, `expectedScore = 8`. -/
theorem getConfig_defaults_on_failure (r : ReadOutcome)
    (h : r = .readError ∨ r = .parseError) :
    getConfig r = defaultConfig := by
  rcases h with h | h <;> subst h <;> rfl

/-- Concrete instance of C5: the missing-file outcome falls back to the
defaults. -/
theorem getConfig_defaults_on_failure_witness :
    ((ReadOutcome.readError = ReadOutcome.readError ∨ ReadOutcome.readError = ReadOutcome.parseError))
    ∧ getConfig .readError = defaultConfig :=
  ⟨Or.inl rfl, getConfig_defaults_on_failure .readError (Or.inl rfl)⟩

/-- C10.  `getConfig` reads only the top-level `dimensionCount` and
`expectedScore` keys; the default settings document nests both values under
a `settings` key, so after a fresh initialization `getConfig`,
`getDimensionCount` and `getExpectedScore` return the built-in defaults,
whatever value sits under the nested `settings` key. -/
theorem getConfig_ignores_nested_settings (s : Json) :
    getConfig (.parsed defaultConfigFileJson) = defaultConfig
    ∧ getConfig (.parsed (.obj [("settings", s)])) = defaultConfig
    ∧ getDimensionCount (.parsed (.obj [("settings", s)])) = Json.num 5
    ∧ getExpectedScore (.parsed (.obj [("settings", s)])) = Json.num 8 :=
  ⟨rfl, rfl, rfl, rfl⟩

/-! ## Claim C9: task-name sanitization (spec-modelled) -/

/-- Every character produced by `collapseWs` is the separator or one of the
input characters. -/
theorem mem_collapseWs : ∀ (b : Bool) (l : List Char) (c : Char),
    c ∈ collapseWs b l → c = '_' ∨ c ∈ l
  | _, [], _, h => by simp [collapseWs] at h
  | b, a :: l, c, h => by
    simp only [collapseWs] at h
    split_ifs at h with hws hsep
    · rcases mem_collapseWs true l c h with h' | h'
      · exact Or.inl h'
      · exact Or.inr (List.mem_cons_of_mem a h')
    · rcases List.mem_cons.mp h with h' | h'
      · exact Or.inl h'
      · rcases mem_collapseWs true l c h' with h'' | h''
        · exact Or.inl h''
        · exact Or.inr (List.mem_cons_of_mem a h'')
    · rcases List.mem_cons.mp h with h' | h'
      · exact Or.inr (List.mem_cons.mpr (Or.inl h'))
      · rcases mem_collapseWs false l c h' with h'' | h''
        · exact Or.inl h''
        · exact Or.inr (List.mem_cons_of_mem a h'')

/-- C9.  For every raw task name, the sanitized segment of the flat
task-record file name `tasks/<taskId>_<sanitizedName>.md` contains no
filesystem-illegal character (in particular none of `/`, `:`, `?`), is at
most 50 characters long, and — being a pure function — is identical across
repeated calls on the same input. -/
theorem sanitizeName_safe (raw : String) :
    (∀ c ∈ (sanitizeName raw).data, illegalFileNameChar c = false)
    ∧ (sanitizeName raw).length ≤ 50 := by
  constructor
  · intro c hc
    have hc' : c ∈ collapseWs false (raw.data.filter fun c => !illegalFileNameChar c) :=
      List.mem_of_mem_take (by simpa [sanitizeName] using hc)
    rcases mem_collapseWs _ _ _ hc' with h | h
    · subst h; rfl
    · have := List.of_mem_filter h
      simpa using this
  · have : (sanitizeName raw).length =
        ((collapseWs false (raw.data.filter fun c => !illegalFileNameChar c)).take 50).length := rfl
    rw [this]
    exact le_trans (List.length_take_le _ _) le_rfl

/-! ## Claim C6: the existing-task lookup -/

/-- A successful `find?` splits the list at the first satisfying element. -/
theorem find?_eq_some_split {α : Type} {p : α → Bool} :
    ∀ {l : List α} {a : α}, l.find? p = some a →
      ∃ l1 l2, l = l1 ++ a :: l2 ∧ ∀ x ∈ l1, p x = false
  | [], a, h => by simp [List.find?] at h
  | b :: t, a, h => by
    rw [List.find?_cons] at h
    split at h
    · cases h
      exact ⟨[], t, rfl, by simp⟩
    · obtain ⟨l1, l2, hsplit, hnone⟩ := find?_eq_some_split h
      refine ⟨b :: l1, l2, by simp [hsplit], ?_⟩
      intro x hx
      rcases List.mem_cons.mp hx with hx | hx
      · subst hx
        simpa using by assumption
      · exact hnone x hx

/-- C6.  Over the entries of the tasks directory (whose names are nonempty),
the lookup returns the first entry containing the fingerprint as a
substring and `none` when no entry does; a missing directory or a scan
error yields `none` rather than an error. -/
theorem findExistingTask_spec (l : List String) (hash : String) (hne : "" ∉ l) :
    findExistingTask .noDir hash = none
    ∧ findExistingTask .scanError hash = none
    ∧ (∀ e, findExistingTask (.entries l) hash = some e →
        e ∈ l ∧ hash.data <:+: e.data
        ∧ ∃ l1 l2, l = l1 ++ e :: l2 ∧ ∀ x ∈ l1, ¬ hash.data <:+: x.data)
    ∧ (findExistingTask (.entries l) hash = none ↔ ∀ x ∈ l, ¬ hash.data <:+: x.data) := by
  refine ⟨rfl, rfl, ?_, ?_⟩
  · intro e he
    simp only [findExistingTask] at he
    rcases hf : l.find? (fun folder => strIncludes folder hash) with _ | f
    · rw [hf] at he
      exact absurd he (by simp)
    · rw [hf] at he
      dsimp only at he
      split_ifs at he with hemp
      cases he
      refine ⟨List.mem_of_find?_eq_some hf, ?_, ?_⟩
      · have := List.find?_some hf
        simpa [strIncludes] using this
      · obtain ⟨l1, l2, hsplit, hnone⟩ := find?_eq_some_split hf
        exact ⟨l1, l2, hsplit, fun x hx => by simpa [strIncludes] using hnone x hx⟩
  · constructor
    · intro hn x hx
      simp only [findExistingTask] at hn
      rcases hf : l.find? (fun folder => strIncludes folder hash) with _ | f
      · have := List.find?_eq_none.mp hf x hx
        simpa [strIncludes] using this
      · rw [hf] at hn
        dsimp only at hn
        split_ifs at hn with hemp
        exact absurd (hemp ▸ List.mem_of_find?_eq_some hf) hne
    · intro hall
      simp only [findExistingTask]
      have : l.find? (fun folder => strIncludes folder hash) = none :=
        List.find?_eq_none.mpr fun x hx => by simpa [strIncludes] using hall x hx
      rw [this]

/-- Concrete instance of C6: a matching entry is found, a missing directory
yields `none`. -/
theorem findExistingTask_spec_witness :
    ("" ∉ ["task_1700000000000_abc12345"])
    ∧ findExistingTask .noDir "abc12345" = none :=
  ⟨by decide, (findExistingTask_spec ["task_1700000000000_abc12345"] "abc12345" (by decide)).1⟩

/-! ## Filesystem lemmas for the directory manager -/

/-- A directory-loop step never touches the file map. -/
theorem initDirStep_files (mkf : FsPath → Bool) (acc : FS × List String × List String)
    (e : String × FsPath) : ((initDirStep mkf acc e).1).files = acc.1.files := by
  unfold initDirStep FS.mkdirRec
  dsimp only
  split_ifs <;> rfl

/-- The whole directory loop never touches the file map. -/
theorem foldl_initDirStep_files (mkf : FsPath → Bool) :
    ∀ (l : List (String × FsPath)) (acc : FS × List String × List String),
      ((l.foldl (initDirStep mkf) acc).1).files = acc.1.files
  | [], _ => rfl
  | e :: t, acc => by
    rw [List.foldl_cons, foldl_initDirStep_files mkf t, initDirStep_files]

/-- A directory-loop step only adds directories. -/
theorem initDirStep_dirs_mono (mkf : FsPath → Bool) (acc : FS × List String × List String)
    (e : String × FsPath) {q : FsPath} (h : q ∈ acc.1.dirs) :
    q ∈ ((initDirStep mkf acc e).1).dirs := by
  unfold initDirStep FS.mkdirRec
  dsimp only
  split_ifs <;> first | exact h | exact List.mem_append_right _ h

/-- `mkdir -p` registers the requested directory. -/
theorem mem_dirs_mkdirRec (fs : FS) {p : FsPath} (hp : p ≠ []) :
    p ∈ (fs.mkdirRec p).dirs := by
  have hmem : p ∈ nonNilPrefixes p := by
    unfold nonNilPrefixes
    refine List.mem_map.mpr ⟨p.length - 1, List.mem_range.mpr ?_, ?_⟩
    · have := List.length_pos.mpr hp
      omega
    · have h1 : p.length - 1 + 1 = p.length := by
        have := List.length_pos.mpr hp
        omega
      rw [h1, List.take_length]
  unfold FS.mkdirRec
  by_cases hq : p ∈ fs.dirs
  · exact List.mem_append_right _ hq
  · exact List.mem_append_left _ (List.mem_filter.mpr ⟨hmem, by simp [hq]⟩)

/-- When its `mkdir` is not failed by the environment, a loop step registers
its directory. -/
theorem initDirStep_creates (mkf : FsPath → Bool) (acc : FS × List String × List String)
    (e : String × FsPath) (h : mkf e.2 = false) (hne : e.2 ≠ []) :
    e.2 ∈ ((initDirStep mkf acc e).1).dirs := by
  unfold initDirStep
  rw [if_neg (by simp [h])]
  dsimp only
  split_ifs <;> exact mem_dirs_mkdirRec _ hne

/-- `createConfigFiles` never changes the directory set. -/
theorem createConfigFiles_dirs (fs : FS) (d : SubDirs) :
    ((createConfigFiles fs d).1).dirs = fs.dirs := by
  unfold createConfigFiles FS.writeFileRaw
  dsimp only
  cases h : fs.lookupFile (d.config ++ ["qdg.config.json"])
  · dsimp only
    split_ifs <;> rfl
  · rfl

/-- A freshly written file reads back with the written content. -/
theorem lookup_writeFileRaw_self (fs : FS) (p : FsPath) (c : String) :
    (fs.writeFileRaw p c).lookupFile p = some c := by
  simp [FS.writeFileRaw, FS.lookupFile, List.find?_cons]

/-- `createConfigFiles` leaves an existing settings document untouched. -/
theorem createConfigFiles_preserves (fs : FS) (d : SubDirs) (c : String)
    (h : fs.lookupFile (d.config ++ ["qdg.config.json"]) = some c) :
    ((createConfigFiles fs d).1).lookupFile (d.config ++ ["qdg.config.json"]) = some c
    ∧ (createConfigFiles fs d).2 = .ok () := by
  unfold createConfigFiles
  dsimp only
  rw [h]
  exact ⟨h, rfl⟩

/-- When the config directory exists, `createConfigFiles` succeeds. -/
theorem createConfigFiles_ok_of_dirExists (fs : FS) (d : SubDirs)
    (h : fs.dirExists d.config = true) : (createConfigFiles fs d).2 = .ok () := by
  unfold createConfigFiles
  dsimp only
  cases hc : fs.lookupFile (d.config ++ ["qdg.config.json"]) with
  | none =>
    dsimp only
    rw [if_pos h]
  | some c => rfl

/-- After a successful `createConfigFiles` the settings document exists. -/
theorem createConfigFiles_ok_lookup (fs : FS) (d : SubDirs)
    (h : (createConfigFiles fs d).2 = .ok ()) :
    ∃ c, ((createConfigFiles fs d).1).lookupFile (d.config ++ ["qdg.config.json"]) = some c := by
  unfold createConfigFiles at h ⊢
  dsimp only at h ⊢
  cases hc : fs.lookupFile (d.config ++ ["qdg.config.json"]) with
  | none =>
    try rw [hc] at h
    dsimp only at h ⊢
    split_ifs at h ⊢ with hd
    exact ⟨defaultConfigContent, lookup_writeFileRaw_self ..⟩
  | some c =>
    exact ⟨c, by simpa using hc⟩

/-- Helper: `initializeQdgDirectory` preserves an existing settings
document. -/
theorem initialize_lookup_preserved (mkf : FsPath → Bool) (fs : FS) (p : FsPath) (c : String)
    (h : fs.lookupFile (mainConfigPath p) = some c) :
    ((initializeQdgDirectory mkf fs p).1).lookupFile (mainConfigPath p) = some c := by
  unfold initializeQdgDirectory
  dsimp only
  have hfiles : ((List.foldl (initDirStep mkf) (fs, [], []) (subDirEntries (getSubDirectories p))).1).files
      = fs.files := foldl_initDirStep_files mkf _ _
  have hlook : ((List.foldl (initDirStep mkf) (fs, [], []) (subDirEntries (getSubDirectories p))).1).lookupFile
      ((getSubDirectories p).config ++ ["qdg.config.json"]) = some c := by
    unfold FS.lookupFile at h ⊢
    rw [hfiles]
    exact h
  have hpres := createConfigFiles_preserves _ (getSubDirectories p) c hlook
  rcases hcc : createConfigFiles ((List.foldl (initDirStep mkf) (fs, [], []) (subDirEntries (getSubDirectories p))).1)
      (getSubDirectories p) with ⟨fs2, res⟩
  rw [hcc] at hpres
  cases res
  · exact hpres.1
  · exact hpres.1

/-- Helper: a successful `initializeQdgDirectory` leaves a settings document
in place. -/
theorem initialize_ok_config_exists (mkf : FsPath → Bool) (fs : FS) (p : FsPath)
    (h : ((initializeQdgDirectory mkf fs p).2).isOk = true) :
    ∃ c, ((initializeQdgDirectory mkf fs p).1).lookupFile (mainConfigPath p) = some c := by
  unfold initializeQdgDirectory at h ⊢
  dsimp only at h ⊢
  rcases hcc : createConfigFiles ((List.foldl (initDirStep mkf) (fs, [], []) (subDirEntries (getSubDirectories p))).1)
      (getSubDirectories p) with ⟨fs2, res⟩
  cases res with
  | error e =>
    rw [hcc] at h
    simp [Except.isOk, Except.toBool] at h
  | ok u =>
    have hok : (createConfigFiles ((List.foldl (initDirStep mkf) (fs, [], []) (subDirEntries (getSubDirectories p))).1)
        (getSubDirectories p)).2 = .ok () := by rw [hcc]
    obtain ⟨c, hc⟩ := createConfigFiles_ok_lookup _ _ hok
    rw [hcc] at hc
    exact ⟨c, hc⟩

/-! ## Claim C2: idempotent initialization of the settings document -/

/-- C2.  An existing `qdg.config.json` is never overwritten with defaults by
`initializeQdgDirectory`, and after a successful initialization a second
initialization (under any environment) leaves the settings document's
content exactly as it was after the first call. -/
theorem initialize_config_idempotent (mkf1 mkf2 : FsPath → Bool) (fs : FS) (p : FsPath) :
    (∀ c, fs.lookupFile (mainConfigPath p) = some c →
        ((initializeQdgDirectory mkf1 fs p).1).lookupFile (mainConfigPath p) = some c)
    ∧ (((initializeQdgDirectory mkf1 fs p).2).isOk = true →
        ((initializeQdgDirectory mkf2 (initializeQdgDirectory mkf1 fs p).1 p).1).lookupFile
            (mainConfigPath p)
          = ((initializeQdgDirectory mkf1 fs p).1).lookupFile (mainConfigPath p)) := by
  refine ⟨fun c h => initialize_lookup_preserved mkf1 fs p c h, fun hok => ?_⟩
  obtain ⟨c, hc⟩ := initialize_ok_config_exists mkf1 fs p hok
  rw [initialize_lookup_preserved mkf2 _ p c hc, hc]

/-! ## Claim C8: partial failure during initialization -/

/-- The directory set of the initialization result is the directory set
left by the creation loop. -/
theorem initialize_dirs (mkf : FsPath → Bool) (fs : FS) (p : FsPath) :
    ((initializeQdgDirectory mkf fs p).1).dirs
      = (((subDirEntries (getSubDirectories p)).foldl (initDirStep mkf) (fs, [], [])).1).dirs := by
  unfold initializeQdgDirectory
  dsimp only
  rcases hcc : createConfigFiles ((List.foldl (initDirStep mkf) (fs, [], []) (subDirEntries (getSubDirectories p))).1)
      (getSubDirectories p) with ⟨fs2, res⟩
  have hd := createConfigFiles_dirs ((List.foldl (initDirStep mkf) (fs, [], []) (subDirEntries (getSubDirectories p))).1)
      (getSubDirectories p)
  rw [hcc] at hd
  cases res
  · exact hd
  · exact hd

/-- C8, counterexample.  When the environment makes the creation of the
`config` subdirectory fail on an otherwise fresh project, the failure is
skipped in the loop but the subsequent default-config write throws `ENOENT`,
and `initializeQdgDirectory` rejects instead of returning its result. -/
theorem initialize_rejects_on_config_dir_failure :
    ((initializeQdgDirectory (fun q => q == ["proj", ".qdg", "config"])
        ⟨[["proj"]], []⟩ ["proj"]).2).isOk = false := by
  decide

/-- C8, amended.  A failing `mkdir` for one subpath is only warned about:
every other subpath is still attempted (each subpath whose `mkdir` the
environment does not fail exists afterwards), and the call still completes
with its result whenever the config subdirectory's creation succeeds (in
particular when some other subpath was the one that failed) and also
whenever the settings document already exists, whatever `mkdir` calls fail;
only when the default settings document cannot be written (config directory
missing and no config file present) does the call reject. -/
theorem initialize_survives_subpath_failure (mkf : FsPath → Bool) (fs : FS) (p : FsPath) :
    (∀ e ∈ subDirEntries (getSubDirectories p), mkf e.2 = false →
        ((initializeQdgDirectory mkf fs p).1).dirExists e.2 = true)
    ∧ (mkf (getSubDirectories p).config = false →
        ((initializeQdgDirectory mkf fs p).2).isOk = true)
    ∧ (∀ c, fs.lookupFile (mainConfigPath p) = some c →
        ((initializeQdgDirectory mkf fs p).2).isOk = true) := by
  refine ⟨?_, ?_, ?_⟩
  · intro e he hm
    simp only [FS.dirExists, decide_eq_true_eq]
    rw [initialize_dirs]
    simp only [subDirEntries, List.foldl_cons, List.foldl_nil]
    simp only [subDirEntries, List.mem_cons, List.not_mem_nil, or_false] at he
    rcases he with he | he | he <;> subst he
    · exact initDirStep_dirs_mono mkf _ _ (initDirStep_dirs_mono mkf _ _
        (initDirStep_creates mkf _ _ hm (by simp [getSubDirectories, getQdgDirectory])))
    · exact initDirStep_dirs_mono mkf _ _
        (initDirStep_creates mkf _ _ hm (by simp [getSubDirectories, getQdgDirectory]))
    · exact initDirStep_creates mkf _ _ hm (by simp [getSubDirectories, getQdgDirectory])
  · intro hm
    unfold initializeQdgDirectory
    dsimp only
    rcases hcc : createConfigFiles ((List.foldl (initDirStep mkf) (fs, [], []) (subDirEntries (getSubDirectories p))).1)
        (getSubDirectories p) with ⟨fs2, res⟩
    have hmem : (getSubDirectories p).config ∈
        (((List.foldl (initDirStep mkf) (fs, [], []) (subDirEntries (getSubDirectories p))).1)).dirs := by
      simp only [subDirEntries, List.foldl_cons, List.foldl_nil]
      exact initDirStep_creates mkf _ ("config", (getSubDirectories p).config) hm
        (by simp [getSubDirectories, getQdgDirectory])
    have hok := createConfigFiles_ok_of_dirExists
        ((List.foldl (initDirStep mkf) (fs, [], []) (subDirEntries (getSubDirectories p))).1)
        (getSubDirectories p) (by simp [FS.dirExists, hmem])
    rw [hcc] at hok
    cases res with
    | error e => exact Except.noConfusion hok
    | ok u => rfl
  · intro c hc
    unfold initializeQdgDirectory
    dsimp only
    have hfiles : ((List.foldl (initDirStep mkf) (fs, [], []) (subDirEntries (getSubDirectories p))).1).files
        = fs.files := foldl_initDirStep_files mkf _ _
    have hlook : ((List.foldl (initDirStep mkf) (fs, [], []) (subDirEntries (getSubDirectories p))).1).lookupFile
        ((getSubDirectories p).config ++ ["qdg.config.json"]) = some c := by
      unfold FS.lookupFile at hc ⊢
      rw [hfiles]
      exact hc
    have hok := (createConfigFiles_preserves _ (getSubDirectories p) c hlook).2
    rcases hcc : createConfigFiles ((List.foldl (initDirStep mkf) (fs, [], []) (subDirEntries (getSubDirectories p))).1)
        (getSubDirectories p) with ⟨fs2, res⟩
    rw [hcc] at hok
    cases res with
    | error e => exact Except.noConfusion hok
    | ok u => rfl

/-! ## Claim C3: write verification in the task-record save -/

/-- UTF-8 encoding of a character is never empty. -/
theorem utf8EncodeCharBytes_ne_nil (c : Char) : utf8EncodeCharBytes c ≠ [] := by
  unfold utf8EncodeCharBytes
  dsimp only
  split_ifs <;> simp

/-- A string with characters has UTF-8 bytes. -/
theorem utf8Bytes_length_ne_zero {s : String} (h : s.data ≠ []) :
    (utf8Bytes s).length ≠ 0 := by
  unfold utf8Bytes
  cases hd : s.data with
  | nil => exact absurd hd h
  | cons c t =>
    simp only [List.flatMap_cons, List.length_append, ne_eq]
    intro hzero
    have : utf8EncodeCharBytes c = [] := by
      have hlen : (utf8EncodeCharBytes c).length = 0 := by omega
      exact List.length_eq_zero.mp hlen
    exact utf8EncodeCharBytes_ne_nil c this

/-- The rendered record has positive length (it starts with a fixed
header). -/
theorem finalDimensionContent_length_pos (taskId nowStr refined dims : String) :
    0 < (finalDimensionContent taskId nowStr refined dims).length := by
  unfold finalDimensionContent
  simp only [String.length_append]
  have h1 : 0 < ("# 质量评价标准\n\n## 📋 任务提炼（第一个环节输出）\n\n" : String).length := by decide
  omega

/-- The rendered record is never the empty string. -/
theorem finalDimensionContent_data_ne_nil (taskId nowStr refined dims : String) :
    (finalDimensionContent taskId nowStr refined dims).data ≠ [] := by
  intro h
  have hp := finalDimensionContent_length_pos taskId nowStr refined dims
  have hlen : (finalDimensionContent taskId nowStr refined dims).length
      = (finalDimensionContent taskId nowStr refined dims).data.length := rfl
  rw [hlen, h] at hp
  simp at hp

/-- C3.  `saveFinalDimensionStandards` re-stats the written file and treats
a zero-byte result as a failure: whenever the file at the destination path
stats to size zero the operation returns a storage error, and a path is
returned only when the written file is non-empty (with the rendered
content in place). -/
theorem saveFinal_path_only_when_nonempty (wo : WriteOutcome) (mkf : FsPath → Bool)
    (nowStr : String) (fs : FS) (p : FsPath) (taskId refined dims : String) :
    (((saveFinalDimensionStandards wo mkf nowStr fs p taskId refined dims).1).lookupFile
        (getDimensionPath p taskId) = some "" →
      ((saveFinalDimensionStandards wo mkf nowStr fs p taskId refined dims).2).isOk = false)
    ∧ (∀ pathStr,
        (saveFinalDimensionStandards wo mkf nowStr fs p taskId refined dims).2 = .ok pathStr →
          pathStr = pathString (getDimensionPath p taskId)
          ∧ ((saveFinalDimensionStandards wo mkf nowStr fs p taskId refined dims).1).lookupFile
              (getDimensionPath p taskId)
            = some (finalDimensionContent taskId nowStr refined dims)
          ∧ (utf8Bytes (finalDimensionContent taskId nowStr refined dims)).length ≠ 0) := by
  cases wo with
  | ok =>
    unfold saveFinalDimensionStandards writeFileE
    dsimp only
    split_ifs with hm hd
    · exact ⟨fun _ => rfl, fun _ hps => hps.elim⟩
    · dsimp only
      rw [lookup_writeFileRaw_self]
      dsimp only
      rw [if_neg (utf8Bytes_length_ne_zero (finalDimensionContent_data_ne_nil taskId nowStr refined dims))]
      refine ⟨fun hlk => ?_, fun ps hps => ?_⟩
      · have hlk' : ((fs.mkdirRec (getTaskDirectory p taskId)).writeFileRaw
            (getDimensionPath p taskId)
            (finalDimensionContent taskId nowStr refined dims)).lookupFile
            (getDimensionPath p taskId) = some "" := hlk
        rw [lookup_writeFileRaw_self] at hlk'
        injection hlk' with hcontent
        exact absurd (congrArg String.data hcontent)
          (finalDimensionContent_data_ne_nil taskId nowStr refined dims)
      · refine ⟨?_, lookup_writeFileRaw_self .., utf8Bytes_length_ne_zero
          (finalDimensionContent_data_ne_nil taskId nowStr refined dims)⟩
        have hps' : Except.ok (ε := QdgError) (pathString (getDimensionPath p taskId))
            = Except.ok ps := hps
        injection hps' with hp1
        exact hp1.symm
    · exact ⟨fun _ => rfl, fun _ hps => hps.elim⟩
  | truncated =>
    unfold saveFinalDimensionStandards writeFileE
    dsimp only
    split_ifs with hm hd
    · exact ⟨fun _ => rfl, fun _ hps => hps.elim⟩
    · dsimp only
      rw [lookup_writeFileRaw_self]
      dsimp only
      rw [if_pos (by rfl : (utf8Bytes "").length = 0)]
      exact ⟨fun _ => rfl, fun _ hps => Except.noConfusion hps⟩
    · exact ⟨fun _ => rfl, fun _ hps => hps.elim⟩
  | ioError =>
    unfold saveFinalDimensionStandards writeFileE
    dsimp only
    split_ifs with hm hd <;> exact ⟨fun _ => rfl, fun _ hps => hps.elim⟩
